import Mathlib

/-!
Verification of the parlay combination & scoring engine of the
headcrackbot repository, as specified in its natural-language spec.

The engine lives in `research_engine.py` (odds arithmetic, leg analysis,
parlay scoring, SGP and cross-game generation), `advanced_analytics.py`
(correlation matrix, Kelly criterion, final selection pass),
`parlay_optimizer.py` (target-odds search, round robins) and
`diverse_parlay_generator.py` (diverse enumeration, deduplication).

Python floats are modelled as exact rationals (`ℚ`); fallible arithmetic
(`ZeroDivisionError` on a zero-odds conversion) is modelled with
`Option`: a `none` result marks the spot where the Python code raises.
Where a Python division's divisor is zero only on inputs the surrounding
code has already ruled out, plain (total) rational division is used.
-/

namespace HeadCrack

/-- `ResearchEngine.american_to_decimal` (research_engine.py:31-36).
Python computes `100 / abs(american_odds)` in the non-positive branch, so a
zero input raises `ZeroDivisionError`; that failure is the `none` case. -/
def american_to_decimal (american_odds : ℚ) : Option ℚ :=
  if 0 < american_odds then some (american_odds / 100 + 1)
  else if american_odds = 0 then none
  else some (100 / |american_odds| + 1)

/-- `ResearchEngine.american_to_implied_prob` (research_engine.py:38-43).
Total: both denominators are positive on every input. -/
def american_to_implied_prob (american_odds : ℚ) : ℚ :=
  if 0 < american_odds then 100 / (american_odds + 100)
  else |american_odds| / (|american_odds| + 100)

/-- `ResearchEngine.calculate_expected_value` (research_engine.py:45-59).
The `implied_prob` argument is accepted but unused, exactly as in the
source. Fails (`none`) iff the odds-to-decimal conversion fails. -/
def calculate_expected_value (implied_prob true_prob american_odds : ℚ) : Option ℚ :=
  (american_to_decimal american_odds).map
    (fun decimal_odds => true_prob * (decimal_odds - 1) - (1 - true_prob))

/-- `config.MIN_CONFIDENCE` default (config.py:33). -/
def MIN_CONFIDENCE : ℚ := 0.6

/-- A game row as used by the generator: identity plus the two team names
that `_calculate_dict_correlation` falls back to (models.Game). -/
structure Game where
  id : Nat
  home_team : String
  away_team : String
deriving DecidableEq, Repr

/-- A candidate leg dictionary as produced by `ResearchEngine.analyze_game`.
`true_probability` is optional because some legs (spread/total placeholders)
are built without it and readers use `.get('true_probability', implied)`. -/
structure Leg where
  game : Game
  bet_type : String
  selection : String
  odds : ℚ
  implied_probability : ℚ
  true_probability : Option ℚ
  expected_value : ℚ
  confidence_score : ℚ
deriving DecidableEq, Repr

/-- Default scoring weight `weights["value"]` (research_engine.py:21-26). -/
def w_value : ℚ := 0.4

/-- Default scoring weight `weights["confidence"]`. -/
def w_confidence : ℚ := 0.3

/-- Default scoring weight `weights["correlation"]`. -/
def w_correlation : ℚ := 0.2

/-- Default scoring weight `weights["diversification"]`. -/
def w_diversification : ℚ := 0.1

/-- `ResearchEngine.calculate_correlation_penalty` (research_engine.py:486-501):
0.5 for legs of the same game, else 0.3 for the same selection, else 0.1. -/
def calculate_correlation_penalty (leg1 leg2 : Leg) : ℚ :=
  if leg1.game.id = leg2.game.id then 0.5
  else if leg1.selection = leg2.selection then 0.3
  else 0.1

/-- Sum of `f legs[i] legs[j]` over all index pairs `i < j`: the nested
`for i / for j in range(i+1, ...)` loop at research_engine.py:522-524. -/
def pair_sum (f : Leg → Leg → ℚ) : List Leg → ℚ
  | [] => 0
  | l :: ls => (ls.map (f l)).sum + pair_sum f ls

/-- The accumulation loop of `build_parlay_score` (research_engine.py:514-517):
running product of implied probabilities, running sums of expected value and
confidence. -/
def score_accum : List Leg → ℚ × ℚ × ℚ → ℚ × ℚ × ℚ
  | [], acc => acc
  | l :: ls, (p, e, c) =>
      score_accum ls
        (p * l.implied_probability, e + l.expected_value, c + l.confidence_score)

/-- The normalized correlation penalty of `build_parlay_score`
(research_engine.py:521-526): pair sum divided by `k*(k-1)/2`, capped at 1. -/
def parlay_correlation_penalty (legs : List Leg) : ℚ :=
  min (pair_sum calculate_correlation_penalty legs /
      ((legs.length : ℚ) * ((legs.length : ℚ) - 1) / 2)) 1

/-- `ResearchEngine.build_parlay_score` (research_engine.py:503-539),
parameterized by the configured MIN_PARLAY_LEGS / MAX_PARLAY_LEGS. For a
singleton list Python would raise `ZeroDivisionError` while normalizing the
penalty; that is reachable only when `min_parlay_legs ≤ 1` (the default
bound is 2), so the division is modelled as total. -/
def build_parlay_score (min_parlay_legs max_parlay_legs : Nat) (legs : List Leg) : ℚ :=
  if legs.length < min_parlay_legs then 0
  else
    let acc := score_accum legs (1, 0, 0)
    let combined_ev := acc.2.1
    let avg_confidence := acc.2.2 / (legs.length : ℚ)
    let correlation_penalty := parlay_correlation_penalty legs
    let diversification := min ((legs.length : ℚ) / (max_parlay_legs : ℚ)) 1
    w_value * (combined_ev / (legs.length : ℚ)) +
      w_confidence * avg_confidence -
      w_correlation * correlation_penalty +
      w_diversification * diversification

/-- The pairwise coefficient table the spec sentence claims for the
generator's penalty, worded from the spec: 1.0 same selection, 0.9 same game
and same bet type, 0.7 same game and related bet types (moneyline vs
spread), 0.5 same game and unrelated bet types, 0.1 different games. -/
def spec_pair_correlation (leg1 leg2 : Leg) : ℚ :=
  if leg1.selection = leg2.selection then 1.0
  else if leg1.game.id = leg2.game.id ∧ leg1.bet_type = leg2.bet_type then 0.9
  else if leg1.game.id = leg2.game.id ∧
      ((leg1.bet_type = "moneyline" ∧ leg2.bet_type = "spread") ∨
        (leg1.bet_type = "spread" ∧ leg2.bet_type = "moneyline")) then 0.7
  else if leg1.game.id = leg2.game.id then 0.5
  else 0.1

/-- The average of the spec's claimed coefficient table over the C(k,2)
unordered leg pairs of a candidate, worded from the spec sentence. -/
def spec_correlation_penalty (legs : List Leg) : ℚ :=
  ((legs.sublistsLen 2).map
      (fun p => match p with
        | [a, b] => spec_pair_correlation a b
        | _ => 0)).sum /
    ((legs.length : ℚ) * ((legs.length : ℚ) - 1) / 2)

/-- Average over the C(k,2) unordered leg pairs of the coefficient table the
code actually uses (0.5 same game, else 0.3 same selection, else 0.1),
written as a sum over the two-element sublists rather than as the source's
nested index loop. -/
def code_pair_table_avg (legs : List Leg) : ℚ :=
  ((legs.sublistsLen 2).map
      (fun p => match p with
        | [a, b] =>
            if a.game.id = b.game.id then 0.5
            else if a.selection = b.selection then 0.3
            else 0.1
        | _ => 0)).sum /
    ((legs.length : ℚ) * ((legs.length : ℚ) - 1) / 2)

/-- `CorrelationMatrix._calculate_dict_correlation`
(advanced_analytics.py:114-143): two legs are of the same game when the
game ids match or, as a fallback, when both team names match; 0.9 same
game & same bet type, 0.7 same game with bet types moneyline-then-spread,
0.5 same game otherwise, 0.1 different games. In the source both legs
always carry a game object, so the `game is None` guards never fire. -/
def dict_correlation (leg1 leg2 : Leg) : ℚ :=
  if leg1.game.id = leg2.game.id ∨
      (leg1.game.home_team = leg2.game.home_team ∧
        leg1.game.away_team = leg2.game.away_team) then
    if leg1.bet_type = leg2.bet_type then 0.9
    else if leg1.bet_type = "moneyline" ∧ leg2.bet_type = "spread" then 0.7
    else 0.5
  else 0.1

/-- A parlay-candidate dictionary as assembled by
`ResearchEngine.generate_parlays` / `generate_same_game_parlays` /
`ParlayOptimizer`. Fields that only some call sites set are given the
defaults that model an absent dictionary key (`dict.get` fallbacks). -/
structure ParlayCandidate where
  legs : List Leg := []
  num_legs : Nat := 0
  combined_odds : ℚ := 0
  implied_probability : ℚ := 0
  combined_implied_prob : ℚ := 0
  expected_value : ℚ := 0
  confidence_score : ℚ := 0
  confidence_rating : String := ""
  score : ℚ := 0
  has_props : Bool := false
  prop_count : Nat := 0
  is_sgp : Bool := false
  game : Option Game := none
  target_diff : ℚ := 0
  avg_correlation : ℚ := 0
  adjusted_score : ℚ := 0
  recommended_stake_pct : ℚ := 0
deriving DecidableEq, Repr

/-- The set of game ids referenced by a candidate's legs
(advanced_analytics.py:178). -/
def parlay_games (p : ParlayCandidate) : Finset Nat :=
  (p.legs.map (fun l => l.game.id)).toFinset

/-- The scoring step of `CorrelationMatrix.optimize_parlay_selection`
(advanced_analytics.py:151-168): the mean of the strict upper triangle of
the correlation matrix is the pair sum over `_calculate_dict_correlation`
divided by C(k,2), and the adjusted score adds `(1 - avg_corr) * 0.2`. -/
def score_parlay_for_selection (p : ParlayCandidate) : ParlayCandidate :=
  let avg_corr := pair_sum dict_correlation p.legs /
    ((p.legs.length : ℚ) * ((p.legs.length : ℚ) - 1) / 2)
  { p with avg_correlation := avg_corr,
           adjusted_score := p.score + (1 - avg_corr) * 0.2 }

/-- The greedy selection loop of `optimize_parlay_selection`
(advanced_analytics.py:174-189): accept when the overlap with already-used
games is below half of the candidate's games OR fewer than `max_parlays`
are selected so far; stop as soon as `max_parlays` are selected. -/
def select_loop (max_parlays : Nat) :
    List ParlayCandidate → Finset Nat → List ParlayCandidate → List ParlayCandidate
  | [], _, selected => selected
  | p :: ps, used_games, selected =>
      if (((parlay_games p ∩ used_games).card : ℚ) <
            ((parlay_games p).card : ℚ) * 0.5) ∨ selected.length < max_parlays then
        if max_parlays ≤ (selected ++ [p]).length then selected ++ [p]
        else select_loop max_parlays ps (used_games ∪ parlay_games p) (selected ++ [p])
      else select_loop max_parlays ps used_games selected

/-- The candidates scored and stably sorted by adjusted score, descending
(advanced_analytics.py:171); Python's stable `list.sort` is modelled by
insertion sort, which is stable for this total relation. -/
def optimize_scored_sorted (cands : List ParlayCandidate) : List ParlayCandidate :=
  (cands.map score_parlay_for_selection).insertionSort
    (fun a b => b.adjusted_score ≤ a.adjusted_score)

/-- `CorrelationMatrix.optimize_parlay_selection` (advanced_analytics.py:145-189). -/
def optimize_parlay_selection (cands : List ParlayCandidate) (max_parlays : Nat) :
    List ParlayCandidate :=
  if cands = [] then []
  else select_loop max_parlays (optimize_scored_sorted cands) ∅ []

/-- Sequence a fallible computation over a list, failing as a whole as soon
as one element fails: a Python exception inside a `for` loop aborts the
enclosing call. -/
def traverse_option {α β : Type} (f : α → Option β) : List α → Option (List β)
  | [] => some []
  | x :: xs => do
      let y ← f x
      let ys ← traverse_option f xs
      some (y :: ys)

/-- Python `range(a, b)`. -/
def py_range (a b : Nat) : List Nat := List.range' a (b - a)

/-- The confidence rating bucketing repeated at research_engine.py:574-579
and 665-671. -/
def confidence_rating_of (avg_confidence : ℚ) : String :=
  if 0.75 ≤ avg_confidence then "High"
  else if 0.65 ≤ avg_confidence then "Moderate"
  else "Low"

/-- The repeated conversion of a combined profit multiplier to American
odds: `(combined_odds * 100) if combined_odds >= 1 else (-100 /
combined_odds)` after `combined_odds -= 1` (research_engine.py:570, 660;
parlay_optimizer.py:54, 108, 146; diverse_parlay_generator.py:228). The
divisor is positive whenever every leg's decimal odds exceeds 1. -/
def profit_to_american (profit : ℚ) : ℚ :=
  if 1 ≤ profit then profit * 100 else -100 / profit

/-- One SGP candidate from a leg combination: the body of the combination
loop of `ResearchEngine.generate_same_game_parlays`
(research_engine.py:557-601). -/
def sgp_candidate_of_combo (minL maxL : Nat) (g : Game) (combo : List Leg) :
    Option ParlayCandidate := do
  let decimals ← traverse_option (fun l => american_to_decimal l.odds) combo
  let combined_implied_prob := (combo.map Leg.implied_probability).prod
  let avg_confidence := (combo.map Leg.confidence_score).sum / (combo.length : ℚ)
  let profit := decimals.prod - 1
  let combined_ev := combined_implied_prob * profit - (1 - combined_implied_prob)
  let prop_count := (combo.filter (fun l => l.bet_type == "prop")).length
  some { legs := combo, num_legs := combo.length,
         combined_odds := profit_to_american profit,
         combined_implied_prob := combined_implied_prob,
         expected_value := combined_ev,
         confidence_score := avg_confidence,
         confidence_rating := confidence_rating_of avg_confidence,
         score := build_parlay_score minL maxL combo * 1.2,
         has_props := decide (0 < prop_count),
         prop_count := prop_count, is_sgp := true, game := some g }

/-- The SGP pool restriction of `generate_same_game_parlays`
(research_engine.py:546): keep only prop, moneyline, spread and total
legs. The whole function (research_engine.py:541-607) is modelled on a
game's analyzed legs; the `analyze_game` call that produces them queries
the database and is the ingestion collaborator's output. -/
def sgp_leg_filter (legs : List Leg) : List Leg :=
  legs.filter (fun l =>
    l.bet_type == "prop" || l.bet_type == "moneyline" ||
      l.bet_type == "spread" || l.bet_type == "total")

/-- The main body of `generate_same_game_parlays`: combination sizes from
`range(max(MIN_PARLAY_LEGS, 4), min(9, len(sgp_legs) + 1))`, each combo
scored, then a stable descending sort by score and the top
`max_parlays`. -/
def generate_same_game_parlays (minL maxL : Nat) (g : Game) (legs : List Leg)
    (max_parlays : Nat) : Option (List ParlayCandidate) :=
  let sgp_legs := sgp_leg_filter legs
  if sgp_legs.length < minL then some []
  else do
    let combos := (py_range (max minL 4) (min 9 (sgp_legs.length + 1))).flatMap
      (fun k => List.sublistsLen k sgp_legs)
    let cands ← traverse_option (sgp_candidate_of_combo minL maxL g) combos
    some ((cands.insertionSort (fun a b => b.score ≤ a.score)).take max_parlays)

/-- One cross-game candidate from a leg combination: the body of the
combination loop of `ResearchEngine.generate_parlays`
(research_engine.py:647-690), including the 15% prop-inclusion bonus. -/
def cross_candidate_of_combo (minL maxL : Nat) (combo : List Leg) :
    Option ParlayCandidate := do
  let decimals ← traverse_option (fun l => american_to_decimal l.odds) combo
  let combined_implied_prob := (combo.map Leg.implied_probability).prod
  let avg_confidence := (combo.map Leg.confidence_score).sum / (combo.length : ℚ)
  let profit := decimals.prod - 1
  let combined_ev := combined_implied_prob * profit - (1 - combined_implied_prob)
  let has_props := combo.any (fun l => l.bet_type == "prop")
  let base_score := build_parlay_score minL maxL combo
  some { legs := combo,
         combined_odds := profit_to_american profit,
         implied_probability := combined_implied_prob,
         expected_value := combined_ev,
         confidence_rating := confidence_rating_of avg_confidence,
         confidence_score := avg_confidence,
         score := if has_props then base_score * 1.15 else base_score,
         num_legs := combo.length,
         has_props := has_props }

/-- The cross-game candidate enumeration of `generate_parlays`
(research_engine.py:646-690): leg counts from `range(MIN_PARLAY_LEGS,
min(MAX_PARLAY_LEGS + 1, len(all_legs) + 1))`. -/
def cross_parlay_candidates (minL maxL : Nat) (all_legs : List Leg) :
    Option (List ParlayCandidate) :=
  traverse_option (cross_candidate_of_combo minL maxL)
    ((py_range minL (min (maxL + 1) (all_legs.length + 1))).flatMap
      (fun k => List.sublistsLen k all_legs))

/-- `KellyCriterion.calculate_kelly_fraction` (advanced_analytics.py:16-50):
quarter Kelly, clamped to [0, 0.05]. -/
def calculate_kelly_fraction (win_prob odds : ℚ) : ℚ :=
  if win_prob ≤ 0 ∨ 1 ≤ win_prob then 0
  else if odds < 0 then
    let b := 100 / |odds| + 1 - 1
    max 0 (min ((b * win_prob - (1 - win_prob)) / b * 0.25) 0.05)
  else if 0 < odds then
    let b := odds / 100 + 1 - 1
    max 0 (min ((b * win_prob - (1 - win_prob)) / b * 0.25) 0.05)
  else 0

/-- `KellyCriterion.calculate_parlay_kelly` (advanced_analytics.py:52-64):
converts the parlay's American odds to decimal and then passes that decimal
value into `calculate_kelly_fraction`, which converts it again — modelled
exactly as written. -/
def calculate_parlay_kelly (p : ParlayCandidate) : ℚ :=
  let leg_probs := p.legs.map (fun l => l.true_probability.getD l.implied_probability)
  let combined_prob := leg_probs.prod
  let decimal_odds :=
    if p.combined_odds < 0 then 100 / |p.combined_odds| + 1
    else p.combined_odds / 100 + 1
  calculate_kelly_fraction combined_prob decimal_odds

/-- The descending stable order on `(has_props, score)` used by the
cross-game candidate sort (research_engine.py:693-696). -/
def cross_sort_rel (a b : ParlayCandidate) : Prop :=
  b.has_props < a.has_props ∨ (b.has_props = a.has_props ∧ b.score ≤ a.score)

instance : DecidableRel cross_sort_rel := fun a b => by
  unfold cross_sort_rel; infer_instance

/-- The descending stable order on `(is_sgp, has_props, score)` used by the
final sort (research_engine.py:718-721). -/
def final_sort_rel (a b : ParlayCandidate) : Prop :=
  b.is_sgp < a.is_sgp ∨ (b.is_sgp = a.is_sgp ∧
    (b.has_props < a.has_props ∨ (b.has_props = a.has_props ∧ b.score ≤ a.score)))

instance : DecidableRel final_sort_rel := fun a b => by
  unfold final_sort_rel; infer_instance

/-- `ResearchEngine.generate_parlays` (research_engine.py:609-724), taking
per-game analyzed legs (the `analyze_game` results) as input. The Kelly
enrichment mutates the optimized candidates in place before they are merged
with the SGP candidates. -/
def generate_parlays (minL maxL : Nat) (game_legs : List (Game × List Leg))
    (max_parlays : Nat) (include_sgp : Bool) : Option (List ParlayCandidate) := do
  let sgp_lists ←
    if include_sgp then
      traverse_option (fun gl => generate_same_game_parlays minL maxL gl.1 gl.2 5) game_legs
    else some []
  let all_parlays := sgp_lists.flatten
  let all_legs := (game_legs.map Prod.snd).flatten
  if all_legs.length < minL then
    some (if all_parlays = [] then [] else all_parlays.take max_parlays)
  else do
    let cands ← cross_parlay_candidates minL maxL all_legs
    let sorted := cands.insertionSort cross_sort_rel
    let optimized := optimize_parlay_selection sorted max_parlays
    let with_kelly := optimized.map (fun p =>
      { p with recommended_stake_pct := calculate_parlay_kelly p * 100 })
    let combined := all_parlays ++
      (if optimized = [] then sorted.take max_parlays else with_kelly)
    some ((combined.insertionSort final_sort_rel).take max_parlays)

/-- The body of the combination loop of
`ParlayOptimizer.optimize_for_target_odds` (parlay_optimizer.py:40-69); an
inner `some none` models a combo that fails the tolerance check and is
skipped. Python divides the difference by `target_odds`; callers pass
nonzero targets, so the division is modelled as total. -/
def target_candidate_of_combo (target_odds tolerance : ℚ) (combo : List Leg) :
    Option (Option ParlayCandidate) := do
  let decimals ← traverse_option (fun l => american_to_decimal l.odds) combo
  let combined_implied := (combo.map Leg.implied_probability).prod
  let total_ev := (combo.map Leg.expected_value).sum
  let total_confidence := (combo.map Leg.confidence_score).sum
  let profit := decimals.prod - 1
  let combined_american := profit_to_american profit
  let diff := |combined_american - target_odds| / target_odds
  if diff ≤ tolerance then
    some (some { legs := combo, num_legs := combo.length,
                 combined_odds := combined_american,
                 implied_probability := combined_implied,
                 expected_value := total_ev / (combo.length : ℚ),
                 confidence_score := total_confidence / (combo.length : ℚ),
                 target_diff := diff,
                 score := (1 - diff) * (total_ev / (combo.length : ℚ)) *
                 (total_confidence / (combo.length : ℚ)) })
  else some none

/-- `ParlayOptimizer.optimize_for_target_odds` (parlay_optimizer.py:18-73)
applied to the flattened analyzed legs. -/
def optimize_for_target_odds (all_legs : List Leg) (target_odds tolerance : ℚ)
    (min_legs max_legs : Nat) : Option (List ParlayCandidate) :=
  if all_legs.length < min_legs then some []
  else do
    let results ← traverse_option (target_candidate_of_combo target_odds tolerance)
      ((py_range min_legs (min (max_legs + 1) (all_legs.length + 1))).flatMap
        (fun k => List.sublistsLen k all_legs))
    some (((results.reduceOption).insertionSort
      (fun a b => b.score ≤ a.score)).take 10)

/-- A parlay dictionary of `DiverseParlayGenerator._calculate_parlay_metrics`
(diverse_parlay_generator.py:255-268). `bet_types` is a Python set, so it
is modelled as a `Finset`; the four `potential_payouts` entries are the
`stake_*` fields. -/
structure DiverseParlay where
  picks : List Leg := []
  num_legs : Nat := 0
  sport : String := ""
  combined_odds : ℚ := 0
  decimal_odds : ℚ := 0
  combined_confidence : ℚ := 0
  stake_10 : ℚ := 0
  stake_25 : ℚ := 0
  stake_50 : ℚ := 0
  stake_100 : ℚ := 0
  bet_types : Finset String := ∅
  num_games : Nat := 0
  avg_expected_value : ℚ := 0
  quality_score : ℚ := 0
  legs : List Leg := []
deriving DecidableEq

/-- The accumulation loop of `_calculate_parlay_metrics`
(diverse_parlay_generator.py:215-225): `return None` at the first leg with
zero odds, before any odds arithmetic on it; otherwise accumulate the
combined decimal odds, the product of confidences, the total EV and the
set of bet types. After the zero check the decimal conversion cannot
fail. -/
def metrics_loop :
    List Leg → ℚ × ℚ × ℚ × Finset String → Option (ℚ × ℚ × ℚ × Finset String)
  | [], acc => some acc
  | l :: ls, (co, cc, ev, bt) =>
      if l.odds = 0 then none
      else
        match american_to_decimal l.odds with
        | none => none
        | some d =>
            metrics_loop ls
              (co * d, cc * l.confidence_score, ev + l.expected_value,
                insert l.bet_type bt)

/-- `DiverseParlayGenerator._calculate_parlay_metrics`
(diverse_parlay_generator.py:198-268): rejects candidates of fewer than two
legs, candidates drawing on too few distinct games, and candidates with a
zero-odds leg. -/
def calculate_parlay_metrics (legs : List Leg) (sport : String) :
    Option DiverseParlay :=
  if legs.length < 2 then none
  else
    let game_ids := (legs.map (fun l => l.game.id)).toFinset
    if (game_ids.card : ℚ) < max 2 ((legs.length : ℚ) * 0.5) then none
    else
      match metrics_loop legs (1, 1, 0, ∅) with
      | none => none
      | some (co, cc, ev, bt) =>
          let profit := co - 1
          let decimal_odds := profit + 1
          let avg_ev := ev / (legs.length : ℚ)
          some { picks := legs, num_legs := legs.length, sport := sport,
                 combined_odds := profit_to_american profit,
                 decimal_odds := decimal_odds,
                 combined_confidence := cc,
                 stake_10 := 10 * decimal_odds, stake_25 := 25 * decimal_odds,
                 stake_50 := 50 * decimal_odds, stake_100 := 100 * decimal_odds,
                 bet_types := bt, num_games := game_ids.card,
                 avg_expected_value := avg_ev,
                 quality_score := cc * 100 * (1 + ((bt.card : ℚ) - 1) * 0.1) *
                   (1 + ((game_ids.card : ℚ) / (legs.length : ℚ)) * 0.1) *
                   (1 + avg_ev * 10),
                 legs := legs }

/-- The `ensure_variety=False` enumeration path of
`DiverseParlayGenerator.generate_diverse_sport_parlays`
(diverse_parlay_generator.py:122-128): combinations of sizes
`range(MIN_PARLAY_LEGS, min(MAX_PARLAY_LEGS + 1, len(all_legs) + 1))`
drawn from the first 50 legs, keeping candidates whose metrics pass. -/
def diverse_simple_candidates (minL maxL : Nat) (sport : String)
    (all_legs : List Leg) : List DiverseParlay :=
  (py_range minL (min (maxL + 1) (all_legs.length + 1))).flatMap
    (fun k => (List.sublistsLen k (all_legs.take 50)).filterMap
      (fun combo => calculate_parlay_metrics combo sport))

/-- Lexicographic order on `(game id, selection)` pairs: Python's tuple
order used by `sorted` in the dedup signature. -/
def sig_pair_le (a b : Nat × String) : Prop :=
  a.1 < b.1 ∨ (a.1 = b.1 ∧ a.2 ≤ b.2)

instance : DecidableRel sig_pair_le := fun a b => by
  unfold sig_pair_le; infer_instance

/-- The dedup signature (diverse_parlay_generator.py:277-280):
the sorted tuple of `(game id, selection)` pairs of the candidate's picks
(diverse candidates always carry a `picks` key, so the `legs` fallback of
`parlay.get` never fires). -/
def parlay_signature (p : DiverseParlay) : List (Nat × String) :=
  (p.picks.map (fun pick => (pick.game.id, pick.selection))).insertionSort
    sig_pair_le

/-- The seen-set loop of `_deduplicate_parlays`
(diverse_parlay_generator.py:270-286). -/
def dedup_go : List DiverseParlay → Finset (List (Nat × String)) → List DiverseParlay
  | [], _ => []
  | p :: ps, seen =>
      if parlay_signature p ∈ seen then dedup_go ps seen
      else p :: dedup_go ps (insert (parlay_signature p) seen)

/-- `DiverseParlayGenerator._deduplicate_parlays`. -/
def deduplicate_parlays (ps : List DiverseParlay) : List DiverseParlay :=
  dedup_go ps ∅

/-- Modelled from the spec: §4.4's deduplication keeps, for each distinct
set of `(game_ref, selection)` pairs, only the first-occurring candidate —
a candidate survives exactly when no earlier candidate of the input list
has the same signature. -/
def keep_first_by_signature_aux :
    List DiverseParlay → List DiverseParlay → List DiverseParlay
  | _, [] => []
  | prev, p :: ps =>
      if prev.any (fun q => decide (parlay_signature q = parlay_signature p)) then
        keep_first_by_signature_aux (prev ++ [p]) ps
      else p :: keep_first_by_signature_aux (prev ++ [p]) ps

/-- Modelled from the spec: the first-occurrence filter started with no
earlier candidates. -/
def keep_first_by_signature (ps : List DiverseParlay) : List DiverseParlay :=
  keep_first_by_signature_aux [] ps

/-- The player-prop Over block of `ResearchEngine.analyze_game`
(research_engine.py:316-344). A zero `over_odds` models Python's falsy gate
`if prop.over_odds` (covering both a missing value and literal zero), and
`prop_value_present` models `prop.prop_value is not None`. `confidence`
comes from `calculate_confidence_score` and `true_prob` from
`estimate_true_probability` (the ML collaborator); `selection` is the
formatted selection text. A leg is kept only when its EV exceeds −0.02, and
its reported `expected_value` is `max(ev, 0.01)`. -/
def prop_over_leg (g : Game) (over_odds : ℚ) (prop_value_present : Bool)
    (confidence true_prob : ℚ) (selection : String) : Option Leg :=
  if over_odds = 0 ∨ prop_value_present = false then none
  else if confidence < MIN_CONFIDENCE * 0.9 then none
  else
    let implied_prob := american_to_implied_prob over_odds
    match calculate_expected_value implied_prob true_prob over_odds with
    | none => none
    | some ev =>
        if -0.02 < ev then
          some { game := g, bet_type := "prop", selection := selection,
                 odds := over_odds, implied_probability := implied_prob,
                 true_probability := some true_prob,
                 expected_value := max ev 0.01,
                 confidence_score := confidence }
        else none

/-- The player-prop Under block of `analyze_game`
(research_engine.py:346-370): identical structure to the Over block. -/
def prop_under_leg (g : Game) (under_odds : ℚ) (prop_value_present : Bool)
    (confidence true_prob : ℚ) (selection : String) : Option Leg :=
  if under_odds = 0 ∨ prop_value_present = false then none
  else if confidence < MIN_CONFIDENCE * 0.9 then none
  else
    let implied_prob := american_to_implied_prob under_odds
    match calculate_expected_value implied_prob true_prob under_odds with
    | none => none
    | some ev =>
        if -0.02 < ev then
          some { game := g, bet_type := "prop", selection := selection,
                 odds := under_odds, implied_probability := implied_prob,
                 true_probability := some true_prob,
                 expected_value := max ev 0.01,
                 confidence_score := confidence }
        else none

/-- The team/period-market Over block of `analyze_game`
(research_engine.py:399-429): as the prop blocks, but the bet type is the
market's `prop_type or market_key`. -/
def team_market_over_leg (g : Game) (bet_type : String) (over_odds : ℚ)
    (prop_value_present : Bool) (confidence true_prob : ℚ)
    (selection : String) : Option Leg :=
  if over_odds = 0 ∨ prop_value_present = false then none
  else if confidence < MIN_CONFIDENCE * 0.9 then none
  else
    let implied_prob := american_to_implied_prob over_odds
    match calculate_expected_value implied_prob true_prob over_odds with
    | none => none
    | some ev =>
        if -0.02 < ev then
          some { game := g, bet_type := bet_type, selection := selection,
                 odds := over_odds, implied_probability := implied_prob,
                 true_probability := some true_prob,
                 expected_value := max ev 0.01,
                 confidence_score := confidence }
        else none

/-- `ParlayOptimizer.round_robin_generator` (parlay_optimizer.py:126-155):
no zero-odds exclusion takes place before the odds arithmetic, so a
zero-odds leg in any group makes the whole call fail. -/
def round_robin_generator (legs : List Leg) (group_size : Nat) :
    Option (List ParlayCandidate) :=
  if legs.length < group_size then some []
  else
    traverse_option (fun combo => do
        let decimals ← traverse_option (fun l => american_to_decimal l.odds) combo
        let combined_implied := (combo.map Leg.implied_probability).prod
        let profit := decimals.prod - 1
        some { legs := combo, num_legs := group_size,
               combined_odds := profit_to_american profit,
               implied_probability := combined_implied })
      (List.sublistsLen group_size legs)

end HeadCrack

namespace HeadCrack

/-- Helper: a pointwise-successful traversal returns the mapped list. -/
theorem traverse_option_eq_some_map {α β : Type} (f : α → Option β) (g : α → β)
    (l : List α) (h : ∀ x ∈ l, f x = some (g x)) :
    traverse_option f l = some (l.map g) := by
  induction l with
  | nil => simp [traverse_option]
  | cons x xs ih =>
      have hx : f x = some (g x) := h x (by simp)
      have hxs := ih (fun y hy => h y (by simp [hy]))
      simp [traverse_option, hx, hxs]

/-- Helper: every element of a successful traversal's output comes from an
element of the input. -/
theorem traverse_option_mem_some {α β : Type} (f : α → Option β) :
    ∀ (l : List α) (out : List β), traverse_option f l = some out →
      ∀ y ∈ out, ∃ x ∈ l, f x = some y := by
  intro l
  induction l with
  | nil =>
      intro out h y hy
      simp [traverse_option] at h
      subst h
      simp at hy
  | cons x xs ih =>
      intro out h y hy
      simp only [traverse_option] at h
      cases hfx : f x with
      | none => rw [hfx] at h; simp at h
      | some v =>
          rw [hfx] at h
          cases hts : traverse_option f xs with
          | none => rw [hts] at h; simp at h
          | some vs =>
              rw [hts] at h
              simp at h
              subst h
              rcases List.mem_cons.mp hy with hv | hvs
              · exact ⟨x, by simp, by rw [hfx, hv]⟩
              · obtain ⟨x2, hx2, hfx2⟩ := ih vs hts y hvs
                exact ⟨x2, by simp [hx2], hfx2⟩

/-- Helper: a successful traversal preserves length. -/
theorem traverse_option_length {α β : Type} (f : α → Option β) :
    ∀ (l : List α) (out : List β), traverse_option f l = some out →
      out.length = l.length := by
  intro l
  induction l with
  | nil =>
      intro out h
      simp [traverse_option] at h
      subst h
      rfl
  | cons x xs ih =>
      intro out h
      simp only [traverse_option] at h
      cases hfx : f x with
      | none => rw [hfx] at h; simp at h
      | some v =>
          rw [hfx] at h
          cases hts : traverse_option f xs with
          | none => rw [hts] at h; simp at h
          | some vs =>
              rw [hts] at h
              simp at h
              subst h
              simp [ih vs hts]

/-- Helper: a member of a list of lists is no longer than the flattening. -/
theorem length_le_length_flatten {α : Type} (l : List α) :
    ∀ (L : List (List α)), l ∈ L → l.length ≤ L.flatten.length := by
  intro L
  induction L with
  | nil => intro h; simp at h
  | cons hd tl ih =>
      intro h
      rcases List.mem_cons.mp h with heq | htl
      · subst heq; simp
      · calc l.length ≤ tl.flatten.length := ih htl
          _ ≤ (hd :: tl).flatten.length := by simp

/-- Helper: a leg pool shorter than MIN_PARLAY_LEGS yields an empty SGP
list (research_engine.py:548-550), since the SGP filter cannot lengthen
the pool. -/
theorem sgp_empty_of_insufficient (minL maxL : Nat) (g : Game) (legs : List Leg)
    (mp : Nat) (h : legs.length < minL) :
    generate_same_game_parlays minL maxL g legs mp = some [] := by
  simp only [generate_same_game_parlays]
  have hle : (sgp_leg_filter legs).length ≤ legs.length := by
    unfold sgp_leg_filter
    exact List.length_filter_le _ _
  rw [if_pos (lt_of_le_of_lt hle h)]

/-- Helper: as long as fewer than `K` candidates are selected, the
acceptance condition of `select_loop` is satisfied by its right disjunct,
so the loop takes candidates in order until `K` are taken. -/
theorem select_loop_eq_take (K : Nat) (l : List ParlayCandidate) :
    ∀ (used : Finset Nat) (sel : List ParlayCandidate), sel.length < K →
      select_loop K l used sel = sel ++ l.take (K - sel.length) := by
  induction l with
  | nil =>
      intro used sel h
      simp [select_loop]
  | cons p ps ih =>
      intro used sel h
      rw [select_loop, if_pos (Or.inr h)]
      by_cases hK : K ≤ (sel ++ [p]).length
      · rw [if_pos hK]
        have h1 : K - sel.length = 1 := by
          simp only [List.length_append, List.length_singleton] at hK
          omega
        rw [h1]
        simp
      · rw [if_neg hK]
        have hlen : (sel ++ [p]).length < K := by
          simp only [List.length_append, List.length_singleton] at hK ⊢
          omega
        rw [ih _ _ hlen]
        have h2 : K - (sel ++ [p]).length = K - sel.length - 1 := by
          simp only [List.length_append, List.length_singleton]
          omega
        have h3 : K - sel.length = (K - sel.length - 1) + 1 := by
          simp only [List.length_append, List.length_singleton] at hK
          omega
        rw [h2, h3, List.take_succ_cons, List.append_assoc]
        simp

/-- Helper: for any positive `K` the whole selection pass reduces to taking
the first `K` of the sorted scored candidates. -/
theorem optimize_parlay_selection_eq_take (cands : List ParlayCandidate)
    (K : Nat) (hK : 1 ≤ K) :
    optimize_parlay_selection cands K = (optimize_scored_sorted cands).take K := by
  unfold optimize_parlay_selection
  by_cases hc : cands = []
  · simp [hc, optimize_scored_sorted]
  · rw [if_neg hc]
    have h := select_loop_eq_take K (optimize_scored_sorted cands) ∅ []
      (by simpa using hK)
    simpa using h

/-- Unfolding lemma: the nested-loop pair sum equals the sum of `f` over all
two-element sublists (unordered pairs in order of occurrence). -/
theorem pair_sum_eq_sum_sublistsLen_two (f : Leg → Leg → ℚ) (legs : List Leg) :
    ((legs.sublistsLen 2).map
        (fun p => match p with
          | [a, b] => f a b
          | _ => 0)).sum = pair_sum f legs := by
  induction legs with
  | nil => simp [pair_sum]
  | cons x xs ih =>
      have h : List.sublistsLen 2 (x :: xs)
          = List.sublistsLen 2 xs ++ (List.sublistsLen 1 xs).map (List.cons x) :=
        List.sublistsLen_succ_cons 1 x xs
      rw [h, List.map_append, List.sum_append, ih, List.sublistsLen_one,
        List.map_map, List.map_map, pair_sum]
      have h2 : (((fun p => match p with
            | [a, b] => f a b
            | _ => 0) ∘ List.cons x) ∘ fun y => [y]) = f x := by
        funext y
        simp [Function.comp]
      rw [h2, List.map_reverse, List.sum_reverse]
      ring

/-- Helper: the correlation penalty of `build_parlay_score` equals the
capped average over the C(k,2) unordered pairs of the code's coefficient
table. -/
theorem parlay_correlation_penalty_eq_table_avg (legs : List Leg) :
    parlay_correlation_penalty legs = min (code_pair_table_avg legs) 1 := by
  unfold parlay_correlation_penalty code_pair_table_avg
  have hfun : (fun p : List Leg => match p with
      | [a, b] =>
          if a.game.id = b.game.id then (0.5 : ℚ)
          else if a.selection = b.selection then 0.3
          else 0.1
      | _ => 0) = (fun p : List Leg => match p with
      | [a, b] => calculate_correlation_penalty a b
      | _ => 0) := by
    funext p
    match p with
    | [] => rfl
    | [_] => rfl
    | [_, _] => rfl
    | _ :: _ :: _ :: _ => rfl
  rw [hfun, pair_sum_eq_sum_sublistsLen_two]

/-- Helper: closed form of the accumulation loop of `build_parlay_score`. -/
theorem score_accum_eq (legs : List Leg) (p e c : ℚ) :
    score_accum legs (p, e, c) =
      (p * (legs.map Leg.implied_probability).prod,
        e + (legs.map Leg.expected_value).sum,
        c + (legs.map Leg.confidence_score).sum) := by
  induction legs generalizing p e c with
  | nil => simp [score_accum]
  | cons x xs ih =>
      rw [score_accum, ih]
      refine Prod.ext ?_ (Prod.ext ?_ ?_) <;> simp <;> ring

/-- C5: `american_to_decimal` returns `odds/100 + 1` for positive odds and
`100/|odds| + 1` for negative odds, and fails (is undefined, a raised
`ZeroDivisionError` in the source) on zero odds instead of returning a
value. -/
theorem c5_american_to_decimal_spec :
    (∀ o : ℚ, o ≠ 0 →
      american_to_decimal o = some (if 0 < o then o / 100 + 1 else 100 / |o| + 1)) ∧
    american_to_decimal 0 = none := by
  constructor
  · intro o ho
    by_cases hpos : 0 < o
    · simp [american_to_decimal, hpos]
    · simp [american_to_decimal, hpos, ho]
  · simp [american_to_decimal]

/-- Witness for C5 at odds −110 and +120. -/
theorem c5_american_to_decimal_spec_witness :
    american_to_decimal (-110) = some (100 / 110 + 1) ∧
      american_to_decimal 120 = some (120 / 100 + 1) := by
  constructor
  · have h := c5_american_to_decimal_spec.1 (-110) (by norm_num)
    rw [h]; norm_num
  · have h := c5_american_to_decimal_spec.1 120 (by norm_num)
    rw [h]; norm_num

/-- C8: a fair leg has zero edge: whenever the estimated true probability
equals the implied probability derived from the (nonzero) odds, the
expected value computed by `calculate_expected_value` is exactly 0 over the
rationals, for positive and negative American odds alike. -/
theorem c8_fair_leg_zero_ev (o : ℚ) (ho : o ≠ 0) :
    calculate_expected_value (american_to_implied_prob o)
      (american_to_implied_prob o) o = some 0 := by
  by_cases hpos : 0 < o
  · have hden : o + 100 ≠ 0 := by positivity
    simp only [calculate_expected_value, american_to_decimal,
      american_to_implied_prob, if_pos hpos, Option.map_some]
    field_simp
  · have hneg : o < 0 := lt_of_le_of_ne (not_lt.mp hpos) ho
    have habs : |o| = -o := abs_of_neg hneg
    have h1 : ¬(0 < o) := hpos
    have hno : -o ≠ 0 := by intro h; apply ho; linarith [neg_eq_zero.mp h]
    have hden : -o + 100 ≠ 0 := by
      have hlt : (0 : ℚ) < -o + 100 := by linarith
      exact ne_of_gt hlt
    simp only [calculate_expected_value, american_to_decimal,
      american_to_implied_prob, if_neg h1, if_neg ho, Option.map_some, habs]
    field_simp
    ring

/-- Witness for C8 at odds −110. -/
theorem c8_fair_leg_zero_ev_witness :
    calculate_expected_value (american_to_implied_prob (-110))
      (american_to_implied_prob (-110)) (-110) = some 0 :=
  c8_fair_leg_zero_ev (-110) (by norm_num)

/-- Sample game used by concrete counterexamples and witnesses. -/
def game_one : Game := ⟨1, "Lakers", "Celtics"⟩

/-- Sample game. -/
def game_two : Game := ⟨2, "Yankees", "Mets"⟩

/-- Sample game. -/
def game_three : Game := ⟨3, "Chiefs", "Bills"⟩

/-- Sample game. -/
def game_four : Game := ⟨4, "Leafs", "Habs"⟩

/-- Two legs of the same game with the same selection and the same bet
type: the spec's coefficient table assigns this pair 1.0 (same selection;
0.9 if one instead reads same game & same bet type first), while the code's
`calculate_correlation_penalty` assigns 0.5. -/
def c1_leg_a : Leg :=
  ⟨game_one, "moneyline", "Lakers", -110, 0.52, none, 0.05, 0.6⟩

/-- Companion leg for the C1 counterexample: same game, same selection,
same bet type as `c1_leg_a`, different odds. -/
def c1_leg_b : Leg :=
  ⟨game_one, "moneyline", "Lakers", -105, 0.51, none, 0.04, 0.6⟩

/-- C1 counterexample: on a concrete two-leg candidate whose legs share
game, selection and bet type, the penalty actually computed inside
`build_parlay_score` is 0.5, while the coefficient table claimed by the
spec averages to 1.0 (and would be 0.9 under the other reading of its
precedence); the claimed table therefore does not describe the generator's
penalty. -/
theorem c1_spec_coefficient_table_refuted :
    parlay_correlation_penalty [c1_leg_a, c1_leg_b] = 0.5 ∧
      spec_correlation_penalty [c1_leg_a, c1_leg_b] = 1 ∧
      parlay_correlation_penalty [c1_leg_a, c1_leg_b] ≠
        spec_correlation_penalty [c1_leg_a, c1_leg_b] ∧
      parlay_correlation_penalty [c1_leg_a, c1_leg_b] ≠ 0.9 := by
  have hsub : List.sublistsLen 2 [c1_leg_a, c1_leg_b] = [[c1_leg_a, c1_leg_b]] := rfl
  refine ⟨?_, ?_, ?_, ?_⟩ <;>
    (try simp [parlay_correlation_penalty, spec_correlation_penalty, hsub,
      pair_sum, calculate_correlation_penalty, spec_pair_correlation,
      c1_leg_a, c1_leg_b, game_one]) <;>
    norm_num [min_def]

/-- C1 amended: for every candidate leg list, the correlation penalty used
by `build_parlay_score` is the pairwise coefficient 0.5 for legs of the
same game, 0.3 for legs of different games sharing a selection, and 0.1
otherwise, summed over all C(k,2) unordered leg pairs, divided by C(k,2)
and capped at 1. -/
theorem c1_correlation_penalty_amended (legs : List Leg) :
    parlay_correlation_penalty legs = min (code_pair_table_avg legs) 1 :=
  parlay_correlation_penalty_eq_table_avg legs

/-- Leg builder for the C2 counterexample: fixed odds/EV/confidence,
varying game and selection. -/
def c2_leg (g : Game) (sel : String) : Leg :=
  ⟨g, "moneyline", sel, -110, 0.52, none, 0.05, 0.6⟩

/-- Two-leg candidate over two distinct games. -/
def c2_legs_a : List Leg := [c2_leg game_one "A1", c2_leg game_two "A2"]

/-- Four-leg candidate over four distinct games. -/
def c2_legs_b : List Leg :=
  [c2_leg game_one "B1", c2_leg game_two "B2",
    c2_leg game_three "B3", c2_leg game_four "B4"]

/-- C2 counterexample: the two concrete candidates agree on average EV,
average confidence, correlation penalty, and on the ratio of distinct games
used to number of legs (both 1), so a score of the claimed shape — with a
diversification bonus proportional to distinct games over legs — would give
them equal scores; `build_parlay_score` scores them differently, because
its diversification bonus is `min(num_legs / MAX_PARLAY_LEGS, 1)` and
ignores distinct games. -/
theorem c2_distinct_game_bonus_refuted :
    ((c2_legs_a.map Leg.expected_value).sum / (c2_legs_a.length : ℚ)
        = (c2_legs_b.map Leg.expected_value).sum / (c2_legs_b.length : ℚ)) ∧
      ((c2_legs_a.map Leg.confidence_score).sum / (c2_legs_a.length : ℚ)
        = (c2_legs_b.map Leg.confidence_score).sum / (c2_legs_b.length : ℚ)) ∧
      parlay_correlation_penalty c2_legs_a = parlay_correlation_penalty c2_legs_b ∧
      (((c2_legs_a.map (fun l => l.game.id)).toFinset.card : ℚ) / (c2_legs_a.length : ℚ)
        = ((c2_legs_b.map (fun l => l.game.id)).toFinset.card : ℚ) / (c2_legs_b.length : ℚ)) ∧
      build_parlay_score 2 15 c2_legs_a ≠ build_parlay_score 2 15 c2_legs_b := by
  refine ⟨?_, ?_, ?_, ?_, ?_⟩ <;>
    (try simp [c2_legs_a, c2_legs_b, c2_leg, game_one, game_two, game_three,
      game_four, parlay_correlation_penalty, pair_sum,
      calculate_correlation_penalty, build_parlay_score, score_accum,
      w_value, w_confidence, w_correlation, w_diversification]) <;>
    norm_num [min_def]

/-- C2 amended: for every candidate of at least `min_parlay_legs` legs, the
composite score equals
`0.4 * avg_ev + 0.3 * avg_confidence − 0.2 * correlation_penalty
  + 0.1 * min(num_legs / max_parlay_legs, 1)`:
the default weights are as claimed, but the diversification bonus depends
only on the leg count relative to MAX_PARLAY_LEGS, not on the number of
distinct games used. -/
theorem c2_build_parlay_score_amended (minL maxL : Nat) (legs : List Leg)
    (hgate : minL ≤ legs.length) :
    build_parlay_score minL maxL legs =
      0.4 * ((legs.map Leg.expected_value).sum / (legs.length : ℚ)) +
        0.3 * ((legs.map Leg.confidence_score).sum / (legs.length : ℚ)) -
        0.2 * min (code_pair_table_avg legs) 1 +
        0.1 * min ((legs.length : ℚ) / (maxL : ℚ)) 1 := by
  unfold build_parlay_score
  rw [if_neg (by omega), score_accum_eq,
    parlay_correlation_penalty_eq_table_avg]
  norm_num [w_value, w_confidence, w_correlation, w_diversification]

/-- Witness for C2 amended at the concrete two-leg candidate with the
default bounds 2 and 15. -/
theorem c2_build_parlay_score_amended_witness :
    build_parlay_score 2 15 c2_legs_a =
      0.4 * ((c2_legs_a.map Leg.expected_value).sum / (c2_legs_a.length : ℚ)) +
        0.3 * ((c2_legs_a.map Leg.confidence_score).sum / (c2_legs_a.length : ℚ)) -
        0.2 * min (code_pair_table_avg c2_legs_a) 1 +
        0.1 * min ((c2_legs_a.length : ℚ) / (15 : ℚ)) 1 :=
  c2_build_parlay_score_amended 2 15 c2_legs_a (by norm_num [c2_legs_a])

/-- Sample game. -/
def game_five : Game := ⟨5, "Arsenal", "Spurs"⟩

/-- Three legs over the same two games (game ids 1, 1, 2), used by the five
duplicate candidates of the C3 counterexample. -/
def c3_dup_legs : List Leg :=
  [⟨game_one, "total", "Over 210", -110, 0.5, none, 0.05, 0.6⟩,
    ⟨game_one, "spread", "Lakers -3", -110, 0.5, none, 0.05, 0.6⟩,
    ⟨game_two, "moneyline", "Yankees", -110, 0.5, none, 0.05, 0.6⟩]

/-- Three legs over three further distinct games (ids 3, 4, 5). -/
def c3_distinct_legs : List Leg :=
  [⟨game_three, "moneyline", "Chiefs", -110, 0.5, none, 0.05, 0.6⟩,
    ⟨game_four, "moneyline", "Leafs", -110, 0.5, none, 0.05, 0.6⟩,
    ⟨game_five, "moneyline", "Arsenal", -110, 0.5, none, 0.05, 0.6⟩]

/-- Candidate builder for the C3 counterexample. -/
def c3_candidate (legs : List Leg) (sc : ℚ) : ParlayCandidate :=
  { legs := legs, num_legs := 3, combined_odds := 300,
    implied_probability := 0.125, expected_value := 0.1,
    confidence_score := 0.6, confidence_rating := "Low",
    score := sc, has_props := false }

/-- Candidate pool for the C3 counterexample: five top-scoring 3-leg
candidates sharing the same two games, plus one lower-scoring candidate
over three distinct games. -/
def c3_cands : List ParlayCandidate :=
  [c3_candidate c3_dup_legs 1, c3_candidate c3_dup_legs 0.9,
    c3_candidate c3_dup_legs 0.8, c3_candidate c3_dup_legs 0.7,
    c3_candidate c3_dup_legs 0.6, c3_candidate c3_distinct_legs 0.1]

/-- C3 counterexample: five otherwise-top-scoring 3-leg candidates share
the same two games; a lower-scoring distinct-game candidate (score 0.1) is
also in the pool, and K = 4 < 5 slots are requested. The selection pass
returns exactly the top four same-game duplicates — the fourth duplicate is
accepted and the distinct-game candidate never appears — contradicting the
claim that a candidate overlapping more than 50% is skipped in favor of a
distinct-game one when it is not needed to reach K. -/
theorem c3_overlap_skip_refuted :
    (optimize_parlay_selection c3_cands 4).map (fun c => c.score)
        = [1, 0.9, 0.8, 0.7] ∧
      (0.1 : ℚ) ∉ (optimize_parlay_selection c3_cands 4).map (fun c => c.score) := by
  have h4 : optimize_parlay_selection c3_cands 4
      = (optimize_scored_sorted c3_cands).take 4 :=
    optimize_parlay_selection_eq_take c3_cands 4 (by norm_num)
  have hs : (optimize_scored_sorted c3_cands).take 4
      = [score_parlay_for_selection (c3_candidate c3_dup_legs 1),
          score_parlay_for_selection (c3_candidate c3_dup_legs 0.9),
          score_parlay_for_selection (c3_candidate c3_dup_legs 0.8),
          score_parlay_for_selection (c3_candidate c3_dup_legs 0.7)] := by
    simp [optimize_scored_sorted, score_parlay_for_selection, pair_sum,
      dict_correlation, c3_cands, c3_candidate, c3_dup_legs, c3_distinct_legs,
      game_one, game_two, game_three, game_four, game_five]
    norm_num [List.insertionSort, List.orderedInsert]
  rw [h4, hs]
  constructor
  · simp [score_parlay_for_selection, c3_candidate]
  · simp [score_parlay_for_selection, c3_candidate]
    norm_num

/-- C3 amended: for every candidate list and every K ≥ 1, the final
selection pass returns exactly the first K candidates of the
adjusted-score-descending ordering: since the acceptance condition also
accepts whenever fewer than K candidates have been accepted so far and the
loop stops at K, the 50% game-overlap check never causes a skip. -/
theorem c3_selection_pass_amended (cands : List ParlayCandidate) (K : Nat)
    (hK : 1 ≤ K) :
    optimize_parlay_selection cands K = (optimize_scored_sorted cands).take K :=
  optimize_parlay_selection_eq_take cands K hK

/-- Witness for C3 amended at the concrete pool and K = 4. -/
theorem c3_selection_pass_amended_witness :
    optimize_parlay_selection c3_cands 4 = (optimize_scored_sorted c3_cands).take 4 :=
  c3_selection_pass_amended c3_cands 4 (by norm_num)

/-- C7: whenever fewer legs than min_legs are available in the pool, parlay
generation returns an empty list rather than failing: this holds for
`ResearchEngine.generate_parlays` (research_engine.py:636-638; the per-game
SGP passes also come up empty because no game can contribute
MIN_PARLAY_LEGS legs) and for `ParlayOptimizer.optimize_for_target_odds`
(parlay_optimizer.py:33-34). The `some` result is the absence of an
exception. -/
theorem c7_insufficient_legs_empty (minL maxL : Nat)
    (game_legs : List (Game × List Leg)) (max_parlays : Nat) (b : Bool)
    (h : ((game_legs.map Prod.snd).flatten).length < minL) :
    generate_parlays minL maxL game_legs max_parlays b = some [] ∧
      ∀ (all_legs : List Leg) (target tol : ℚ) (minK maxK : Nat),
        all_legs.length < minK →
        optimize_for_target_odds all_legs target tol minK maxK = some [] := by
  constructor
  · have hper : ∀ gl ∈ game_legs,
        generate_same_game_parlays minL maxL gl.1 gl.2 5 =
          some ((fun _ => ([] : List ParlayCandidate)) gl) := by
      intro gl hgl
      apply sgp_empty_of_insufficient
      have hmem : gl.2 ∈ game_legs.map Prod.snd := List.mem_map_of_mem _ hgl
      exact lt_of_le_of_lt (length_le_length_flatten _ _ hmem) h
    have htrav := traverse_option_eq_some_map _ _ game_legs hper
    simp only [generate_parlays]
    cases b with
    | false =>
        simp only [Bool.false_eq_true, if_false, Option.bind_eq_bind,
          Option.some_bind, List.flatten_nil]
        rw [if_pos h]
        simp
    | true =>
        simp only [if_true, htrav, Option.bind_eq_bind, Option.some_bind]
        have hflat : (game_legs.map (fun _ => ([] : List ParlayCandidate))).flatten = [] := by
          simp [List.flatten_eq_nil_iff]
        rw [hflat, if_pos h]
        simp
  · intro all_legs target tol minK maxK hlt
    simp only [optimize_for_target_odds]
    rw [if_pos hlt]

/-- Witness for C7 at a one-leg pool with the default bounds. -/
theorem c7_insufficient_legs_empty_witness :
    generate_parlays 2 15 [(game_one, [c1_leg_a])] 10 true = some [] ∧
      optimize_for_target_odds [c1_leg_a] 300 0.1 2 8 = some [] := by
  have h := c7_insufficient_legs_empty 2 15 [(game_one, [c1_leg_a])] 10 true (by simp)
  exact ⟨h.1, h.2 [c1_leg_a] 300 0.1 2 8 (by simp)⟩

/-- Helper: the odds-to-decimal conversion succeeds exactly on nonzero
odds. -/
theorem american_to_decimal_isSome (o : ℚ) (h : o ≠ 0) :
    (american_to_decimal o).isSome = true := by
  by_cases hpos : 0 < o
  · simp [american_to_decimal, hpos]
  · simp [american_to_decimal, hpos, h]

/-- Helper: a traversal over pointwise-successful elements succeeds. -/
theorem traverse_option_isSome_of {α β : Type} (f : α → Option β) :
    ∀ (l : List α), (∀ x ∈ l, (f x).isSome = true) →
      ∃ out, traverse_option f l = some out := by
  intro l
  induction l with
  | nil => intro h; exact ⟨[], rfl⟩
  | cons x xs ih =>
      intro h
      obtain ⟨v, hv⟩ := Option.isSome_iff_exists.mp (h x (by simp))
      obtain ⟨vs, hvs⟩ := ih (fun y hy => h y (by simp [hy]))
      exact ⟨v :: vs, by simp [traverse_option, hv, hvs]⟩

/-- Helper: a successful traversal contains the image of every input
element. -/
theorem traverse_option_mem_forward {α β : Type} (f : α → Option β) :
    ∀ (l : List α) (out : List β), traverse_option f l = some out →
      ∀ x ∈ l, ∀ y, f x = some y → y ∈ out := by
  intro l
  induction l with
  | nil =>
      intro out h x hx
      simp at hx
  | cons a as ih =>
      intro out h x hx y hy
      simp only [traverse_option] at h
      cases hfa : f a with
      | none => rw [hfa] at h; simp at h
      | some v =>
          rw [hfa] at h
          cases hts : traverse_option f as with
          | none => rw [hts] at h; simp at h
          | some vs =>
              rw [hts] at h
              simp at h
              subst h
              rcases List.mem_cons.mp hx with hax | hxs
              · subst hax
                rw [hfa] at hy
                simp at hy
                simp [hy]
              · exact List.mem_cons_of_mem _ (ih vs hts x hxs y hy)

/-- Helper: the num_legs of a cross-game candidate is the combination's
length. -/
theorem cross_candidate_num_legs (minL maxL : Nat) (combo : List Leg)
    (c : ParlayCandidate) (h : cross_candidate_of_combo minL maxL combo = some c) :
    c.num_legs = combo.length := by
  simp only [cross_candidate_of_combo, Option.bind_eq_bind] at h
  cases hd : traverse_option (fun l => american_to_decimal l.odds) combo with
  | none => rw [hd] at h; simp at h
  | some ds =>
      rw [hd] at h
      simp only [Option.some_bind, Option.some.injEq] at h
      rw [← h]

/-- Helper: the num_legs of an SGP candidate is the combination's length. -/
theorem sgp_candidate_num_legs (minL maxL : Nat) (g : Game) (combo : List Leg)
    (c : ParlayCandidate) (h : sgp_candidate_of_combo minL maxL g combo = some c) :
    c.num_legs = combo.length := by
  simp only [sgp_candidate_of_combo, Option.bind_eq_bind] at h
  cases hd : traverse_option (fun l => american_to_decimal l.odds) combo with
  | none => rw [hd] at h; simp at h
  | some ds =>
      rw [hd] at h
      simp only [Option.some_bind, Option.some.injEq] at h
      rw [← h]

/-- Helper: a cross-game candidate construction succeeds whenever every leg
has nonzero odds. -/
theorem cross_candidate_isSome (minL maxL : Nat) (combo : List Leg)
    (h : ∀ l ∈ combo, l.odds ≠ 0) :
    ∃ c, cross_candidate_of_combo minL maxL combo = some c := by
  obtain ⟨ds, hds⟩ := traverse_option_isSome_of (fun l => american_to_decimal l.odds)
    combo (fun l hl => american_to_decimal_isSome _ (h l hl))
  apply Option.isSome_iff_exists.mp
  simp only [cross_candidate_of_combo, Option.bind_eq_bind, hds, Option.some_bind]
  rfl

/-- Helper: an SGP candidate construction succeeds whenever every leg has
nonzero odds. -/
theorem sgp_candidate_isSome (minL maxL : Nat) (g : Game) (combo : List Leg)
    (h : ∀ l ∈ combo, l.odds ≠ 0) :
    ∃ c, sgp_candidate_of_combo minL maxL g combo = some c := by
  obtain ⟨ds, hds⟩ := traverse_option_isSome_of (fun l => american_to_decimal l.odds)
    combo (fun l hl => american_to_decimal_isSome _ (h l hl))
  apply Option.isSome_iff_exists.mp
  simp only [sgp_candidate_of_combo, Option.bind_eq_bind, hds, Option.some_bind]
  rfl

/-- C6 amended: the cross-game enumeration of `generate_parlays` respects
the configured bounds — every candidate it returns has between min_legs and
max_legs legs — but `generate_same_game_parlays` ignores MAX_PARLAY_LEGS:
its candidates always have between `max(min_legs, 4)` and 8 legs, so with
min_legs = 2 and max_legs = 4 the generator's overall output (which merges
the SGP candidates) can contain candidates of 5 to 8 legs. -/
theorem c6_leg_count_amended :
    (∀ (minL maxL : Nat) (all_legs : List Leg) (cands : List ParlayCandidate),
        cross_parlay_candidates minL maxL all_legs = some cands →
        ∀ c ∈ cands, minL ≤ c.num_legs ∧ c.num_legs ≤ maxL) ∧
      (∀ (minL maxL : Nat) (g : Game) (legs : List Leg)
          (mp : Nat) (cands : List ParlayCandidate),
        generate_same_game_parlays minL maxL g legs mp = some cands →
        ∀ c ∈ cands, max minL 4 ≤ c.num_legs ∧ c.num_legs ≤ 8) := by
  constructor
  · intro minL maxL all_legs cands hc c hmem
    obtain ⟨combo, hcombo, hcc⟩ :=
      traverse_option_mem_some _ _ _ hc c hmem
    obtain ⟨k, hk, hsub⟩ := List.mem_flatMap.mp hcombo
    have hlen : combo.length = k := List.length_of_sublistsLen hsub
    have hnum := cross_candidate_num_legs _ _ _ _ hcc
    simp only [py_range] at hk
    have hrange := List.mem_range'_1.mp hk
    have hM : min (maxL + 1) (all_legs.length + 1) ≤ maxL + 1 :=
      min_le_left _ _
    rw [hnum, hlen]
    omega
  · intro minL maxL g legs mp cands hc c hmem
    simp only [generate_same_game_parlays] at hc
    by_cases hg : (sgp_leg_filter legs).length < minL
    · rw [if_pos hg] at hc
      simp at hc
      subst hc
      simp at hmem
    · rw [if_neg hg] at hc
      simp only [Option.bind_eq_bind] at hc
      cases hts : traverse_option (sgp_candidate_of_combo minL maxL g)
          ((py_range (max minL 4) (min 9 ((sgp_leg_filter legs).length + 1))).flatMap
            (fun k => List.sublistsLen k (sgp_leg_filter legs))) with
      | none => rw [hts] at hc; simp at hc
      | some cs0 =>
          rw [hts] at hc
          simp at hc
          subst hc
          have hmem2 : c ∈ cs0 :=
            ((List.perm_insertionSort _ cs0).mem_iff).mp
              (List.mem_of_mem_take hmem)
          obtain ⟨combo, hcombo, hcc⟩ :=
            traverse_option_mem_some _ _ _ hts c hmem2
          obtain ⟨k, hk, hsub⟩ := List.mem_flatMap.mp hcombo
          have hlen : combo.length = k := List.length_of_sublistsLen hsub
          have hnum := sgp_candidate_num_legs _ _ _ _ _ hcc
          simp only [py_range] at hk
          have hrange := List.mem_range'_1.mp hk
          have hM : min 9 ((sgp_leg_filter legs).length + 1) ≤ 9 :=
            min_le_left _ _
          rw [hnum, hlen]
          omega

/-- Four same-game legs of the four SGP-eligible bet types. -/
def c6_sgp_legs4 : List Leg :=
  [⟨game_one, "moneyline", "W", 100, 0.5, none, 0.05, 0.6⟩,
    ⟨game_one, "spread", "X", 100, 0.5, none, 0.05, 0.6⟩,
    ⟨game_one, "total", "Y", 100, 0.5, none, 0.05, 0.6⟩,
    ⟨game_one, "prop", "Z", 100, 0.5, none, 0.05, 0.6⟩]

/-- Five same-game SGP-eligible legs. -/
def c6_sgp_legs5 : List Leg :=
  [⟨game_one, "moneyline", "W", 100, 0.5, none, 0.05, 0.6⟩,
    ⟨game_one, "spread", "X", 100, 0.5, none, 0.05, 0.6⟩,
    ⟨game_one, "total", "Y", 100, 0.5, none, 0.05, 0.6⟩,
    ⟨game_one, "prop", "Z", 100, 0.5, none, 0.05, 0.6⟩,
    ⟨game_one, "prop", "V", 100, 0.5, none, 0.05, 0.6⟩]

/-- Witness for C6 amended at a two-leg cross-game pool and a four-leg SGP
pool, both with bounds min_legs = 2 and max_legs = 4. -/
theorem c6_leg_count_amended_witness :
    ((cross_parlay_candidates 2 4 c2_legs_a).getD []).all
        (fun c => decide (2 ≤ c.num_legs ∧ c.num_legs ≤ 4)) = true ∧
      ((generate_same_game_parlays 2 4 game_one c6_sgp_legs4 10).getD []).all
        (fun c => decide (4 ≤ c.num_legs ∧ c.num_legs ≤ 8)) = true := by
  constructor
  · have hodds : ∀ l ∈ c2_legs_a, l.odds ≠ 0 := by
      intro l hl
      simp [c2_legs_a, c2_leg] at hl
      rcases hl with rfl | rfl <;> norm_num
    obtain ⟨cs, hcs⟩ : ∃ cs, cross_parlay_candidates 2 4 c2_legs_a = some cs := by
      unfold cross_parlay_candidates
      apply traverse_option_isSome_of
      intro combo hcombo
      obtain ⟨k, hk, hsub⟩ := List.mem_flatMap.mp hcombo
      have hss := (List.mem_sublistsLen.mp hsub).1.subset
      obtain ⟨c, hc⟩ := cross_candidate_isSome 2 4 combo (fun l hl => hodds l (hss hl))
      simp [hc]
    rw [hcs]
    simp only [Option.getD_some]
    apply List.all_eq_true.mpr
    intro c hc
    exact decide_eq_true (c6_leg_count_amended.1 2 4 c2_legs_a cs hcs c hc)
  · have hodds : ∀ l ∈ c6_sgp_legs4, l.odds ≠ 0 := by
      intro l hl
      simp [c6_sgp_legs4] at hl
      rcases hl with rfl | rfl | rfl | rfl <;> norm_num
    obtain ⟨out, hout⟩ :
        ∃ out, generate_same_game_parlays 2 4 game_one c6_sgp_legs4 10 = some out := by
      simp only [generate_same_game_parlays]
      rw [if_neg (by simp [sgp_leg_filter, c6_sgp_legs4])]
      have hsucc : ∀ combo ∈ ((py_range (max 2 4)
            (min 9 ((sgp_leg_filter c6_sgp_legs4).length + 1))).flatMap
            (fun k => List.sublistsLen k (sgp_leg_filter c6_sgp_legs4))),
          (sgp_candidate_of_combo 2 4 game_one combo).isSome = true := by
        intro combo hcombo
        obtain ⟨k, hk, hsub⟩ := List.mem_flatMap.mp hcombo
        have hss := (List.mem_sublistsLen.mp hsub).1.subset
        have hfl : ∀ l ∈ sgp_leg_filter c6_sgp_legs4, l.odds ≠ 0 := by
          intro l hl
          unfold sgp_leg_filter at hl
          exact hodds l (List.mem_of_mem_filter hl)
        obtain ⟨c, hc⟩ := sgp_candidate_isSome 2 4 game_one combo
          (fun l hl => hfl l (hss hl))
        simp [hc]
      obtain ⟨cs0, hcs0⟩ := traverse_option_isSome_of _ _ hsucc
      rw [Option.bind_eq_bind, hcs0, Option.some_bind]
      exact ⟨_, rfl⟩
    rw [hout]
    simp only [Option.getD_some]
    apply List.all_eq_true.mpr
    intro c hc
    have hb := c6_leg_count_amended.2 2 4 game_one c6_sgp_legs4 10 out hout c hc
    exact decide_eq_true ⟨le_trans (by norm_num) hb.1, hb.2⟩

/-- C6 counterexample: with min_legs = 2 and max_legs = 4, the SGP
generator run on five same-game eligible legs returns a candidate with five
legs — more than max_legs — because its size range `range(max(min_legs, 4),
min(9, len + 1))` ignores the max_legs bound. -/
theorem c6_sgp_exceeds_max_legs :
    ((generate_same_game_parlays 2 4 game_one c6_sgp_legs5 10).getD []).any
        (fun c => decide (4 < c.num_legs)) = true := by
  have hodds : ∀ l ∈ c6_sgp_legs5, l.odds ≠ 0 := by
    intro l hl
    simp [c6_sgp_legs5] at hl
    rcases hl with rfl | rfl | rfl | rfl | rfl <;> norm_num
  have hfl : ∀ l ∈ sgp_leg_filter c6_sgp_legs5, l.odds ≠ 0 := by
    intro l hl
    unfold sgp_leg_filter at hl
    exact hodds l (List.mem_of_mem_filter hl)
  have hsucc : ∀ combo ∈ ((py_range (max 2 4)
        (min 9 ((sgp_leg_filter c6_sgp_legs5).length + 1))).flatMap
        (fun k => List.sublistsLen k (sgp_leg_filter c6_sgp_legs5))),
      (sgp_candidate_of_combo 2 4 game_one combo).isSome = true := by
    intro combo hcombo
    obtain ⟨k, hk, hsub⟩ := List.mem_flatMap.mp hcombo
    have hss := (List.mem_sublistsLen.mp hsub).1.subset
    obtain ⟨c, hc⟩ := sgp_candidate_isSome 2 4 game_one combo
      (fun l hl => hfl l (hss hl))
    simp [hc]
  obtain ⟨cs0, hcs0⟩ := traverse_option_isSome_of _ _ hsucc
  have hout : generate_same_game_parlays 2 4 game_one c6_sgp_legs5 10
      = some ((cs0.insertionSort (fun a b => b.score ≤ a.score)).take 10) := by
    simp only [generate_same_game_parlays]
    rw [if_neg (by simp [sgp_leg_filter, c6_sgp_legs5])]
    rw [Option.bind_eq_bind, hcs0, Option.some_bind]
  have hfilter : sgp_leg_filter c6_sgp_legs5 = c6_sgp_legs5 := rfl
  have hcombo : c6_sgp_legs5 ∈ ((py_range (max 2 4)
      (min 9 ((sgp_leg_filter c6_sgp_legs5).length + 1))).flatMap
      (fun k => List.sublistsLen k (sgp_leg_filter c6_sgp_legs5))) := by
    rw [hfilter]
    apply List.mem_flatMap.mpr
    refine ⟨5, ?_, ?_⟩
    · simp [py_range, List.mem_range'_1]
      norm_num [c6_sgp_legs5]
    · exact List.mem_sublistsLen.mpr ⟨List.Sublist.refl _, rfl⟩
  obtain ⟨cand, hcand⟩ := sgp_candidate_isSome 2 4 game_one c6_sgp_legs5 hodds
  have hcand_mem : cand ∈ cs0 :=
    traverse_option_mem_forward _ _ _ hcs0 _ hcombo _ hcand
  have hnum : cand.num_legs = 5 :=
    (sgp_candidate_num_legs _ _ _ _ _ hcand).trans rfl
  have hlen0 : cs0.length = 6 := by
    rw [traverse_option_length _ _ _ hcs0]
    rfl
  have htake : ((cs0.insertionSort (fun a b => b.score ≤ a.score)).take 10)
      = cs0.insertionSort (fun a b => b.score ≤ a.score) := by
    apply List.take_of_length_le
    rw [(List.perm_insertionSort _ cs0).length_eq, hlen0]
    norm_num
  have hmem_out : cand ∈ ((cs0.insertionSort (fun a b => b.score ≤ a.score)).take 10) := by
    rw [htake]
    exact ((List.perm_insertionSort _ cs0).mem_iff).mpr hcand_mem
  rw [hout]
  simp only [Option.getD_some]
  apply List.any_eq_true.mpr
  exact ⟨cand, hmem_out, decide_eq_true (by omega)⟩

instance : IsTrans (Nat × String) sig_pair_le := ⟨by
  intro a b c hab hbc
  unfold sig_pair_le at *
  rcases hab with h1 | ⟨h1, h2⟩ <;> rcases hbc with h3 | ⟨h3, h4⟩
  · exact Or.inl (lt_trans h1 h3)
  · exact Or.inl (by omega)
  · exact Or.inl (by omega)
  · exact Or.inr ⟨h1.trans h3, le_trans h2 h4⟩⟩

instance : IsAntisymm (Nat × String) sig_pair_le := ⟨by
  intro a b hab hba
  unfold sig_pair_le at *
  rcases hab with h1 | ⟨h1, h2⟩ <;> rcases hba with h3 | ⟨h3, h4⟩
  · omega
  · omega
  · omega
  · have h5 := le_antisymm h2 h4
    cases a
    cases b
    simp_all⟩

instance : IsTotal (Nat × String) sig_pair_le := ⟨by
  intro a b
  unfold sig_pair_le
  rcases lt_trichotomy a.1 b.1 with h | h | h
  · exact Or.inl (Or.inl h)
  · rcases le_total a.2 b.2 with h2 | h2
    · exact Or.inl (Or.inr ⟨h, h2⟩)
    · exact Or.inr (Or.inr ⟨h.symm, h2⟩)
  · exact Or.inr (Or.inl h)⟩

/-- Helper: the seen-set dedup loop equals the first-occurrence filter when
the seen set holds exactly the signatures of the earlier candidates. -/
theorem dedup_go_eq_keep_first :
    ∀ (ps prev : List DiverseParlay),
      dedup_go ps ((prev.map parlay_signature).toFinset)
        = keep_first_by_signature_aux prev ps := by
  intro ps
  induction ps with
  | nil => intro prev; rfl
  | cons p ps ih =>
      intro prev
      rw [dedup_go, keep_first_by_signature_aux]
      have hseen : ((prev ++ [p]).map parlay_signature).toFinset
          = insert (parlay_signature p) ((prev.map parlay_signature).toFinset) := by
        simp [List.toFinset_append, Finset.insert_eq, Finset.union_comm]
      by_cases hmem : parlay_signature p ∈ (prev.map parlay_signature).toFinset
      · have hany : (prev.any
            (fun q => decide (parlay_signature q = parlay_signature p))) = true := by
          apply List.any_eq_true.mpr
          simp only [List.mem_toFinset, List.mem_map] at hmem
          obtain ⟨q, hq, he⟩ := hmem
          exact ⟨q, hq, decide_eq_true he⟩
        rw [if_pos hmem, if_pos hany]
        have habs : ((prev ++ [p]).map parlay_signature).toFinset
            = (prev.map parlay_signature).toFinset := by
          rw [hseen]
          exact Finset.insert_eq_self.mpr hmem
        rw [← habs, ih]
      · have hany : ¬ ((prev.any
            (fun q => decide (parlay_signature q = parlay_signature p))) = true) := by
          intro hc
          obtain ⟨q, hq, he⟩ := List.any_eq_true.mp hc
          apply hmem
          simp only [List.mem_toFinset, List.mem_map]
          exact ⟨q, hq, of_decide_eq_true he⟩
        rw [if_neg hmem, if_neg hany, ← hseen, ih]

/-- Helper: the dedup loop's output has pairwise-distinct signatures, none
of them in the incoming seen set. -/
theorem dedup_go_props :
    ∀ (ps : List DiverseParlay) (seen : Finset (List (Nat × String))),
      (∀ p ∈ dedup_go ps seen, parlay_signature p ∉ seen) ∧
        (dedup_go ps seen).Pairwise
          (fun a b => parlay_signature a ≠ parlay_signature b) := by
  intro ps
  induction ps with
  | nil => intro seen; constructor <;> simp [dedup_go]
  | cons p ps ih =>
      intro seen
      rw [dedup_go]
      by_cases hmem : parlay_signature p ∈ seen
      · rw [if_pos hmem]
        exact ih seen
      · rw [if_neg hmem]
        constructor
        · intro q hq
          rcases List.mem_cons.mp hq with rfl | hq2
          · exact hmem
          · have h2 := (ih (insert (parlay_signature p) seen)).1 q hq2
            intro hc
            exact h2 (Finset.mem_insert_of_mem hc)
        · apply List.Pairwise.cons
          · intro q hq
            have h2 := (ih (insert (parlay_signature p) seen)).1 q hq
            intro hc
            exact h2 (by rw [← hc]; exact Finset.mem_insert_self _ _)
          · exact (ih (insert (parlay_signature p) seen)).2

/-- Helper: the dedup loop leaves a signature-distinct, seen-disjoint list
unchanged. -/
theorem dedup_go_fixed :
    ∀ (l : List DiverseParlay) (seen : Finset (List (Nat × String))),
      l.Pairwise (fun a b => parlay_signature a ≠ parlay_signature b) →
      (∀ p ∈ l, parlay_signature p ∉ seen) →
      dedup_go l seen = l := by
  intro l
  induction l with
  | nil => intro seen _ _; rfl
  | cons p ps ih =>
      intro seen hpw hseen
      rw [dedup_go, if_neg (hseen p (by simp))]
      congr 1
      apply ih _ (List.Pairwise.of_cons hpw)
      intro q hq hc
      rcases Finset.mem_insert.mp hc with he | hm
      · exact ((List.pairwise_cons.mp hpw).1 q hq) he.symm
      · exact hseen q (List.mem_cons_of_mem _ hq) hm

/-- Helper: the dedup signature is invariant under reordering of the picks:
two candidates whose `(game id, selection)` pair lists are permutations of
one another get the same signature. -/
theorem parlay_signature_perm (p q : DiverseParlay)
    (h : (p.picks.map (fun pick => (pick.game.id, pick.selection))).Perm
        (q.picks.map (fun pick => (pick.game.id, pick.selection)))) :
    parlay_signature p = parlay_signature q := by
  unfold parlay_signature
  exact @List.eq_of_perm_of_sorted _ sig_pair_le _ _ _
    ((List.perm_insertionSort _ _).trans
      (h.trans (List.perm_insertionSort _ _).symm))
    (List.sorted_insertionSort _ _) (List.sorted_insertionSort _ _)

/-- C9: the deduplication pass keeps, for each distinct signature (the set
of `(game_ref, selection)` pairs of the legs, order-insensitively), only
the first-occurring candidate, and it is idempotent: applying it to its own
output removes nothing. -/
theorem c9_dedup_first_and_idempotent :
    (∀ ps : List DiverseParlay,
        deduplicate_parlays ps = keep_first_by_signature ps) ∧
      (∀ ps : List DiverseParlay,
        deduplicate_parlays (deduplicate_parlays ps) = deduplicate_parlays ps) ∧
      (∀ p q : DiverseParlay,
        (p.picks.map (fun pick => (pick.game.id, pick.selection))).Perm
            (q.picks.map (fun pick => (pick.game.id, pick.selection))) →
          parlay_signature p = parlay_signature q) := by
  refine ⟨?_, ?_, parlay_signature_perm⟩
  · intro ps
    have h := dedup_go_eq_keep_first ps []
    simpa [deduplicate_parlays, keep_first_by_signature] using h
  · intro ps
    unfold deduplicate_parlays
    apply dedup_go_fixed
    · exact (dedup_go_props ps ∅).2
    · intro p _
      exact Finset.not_mem_empty _

/-- Sample pick for the C9 witness. -/
def c9_pick_a : Leg := ⟨game_one, "moneyline", "Lakers", -110, 0.5, none, 0.05, 0.6⟩

/-- Sample pick for the C9 witness. -/
def c9_pick_b : Leg := ⟨game_two, "moneyline", "Yankees", 120, 0.5, none, 0.05, 0.6⟩

/-- Candidate with picks in one order. -/
def c9_parlay_ab : DiverseParlay := { picks := [c9_pick_a, c9_pick_b] }

/-- The same picks in the opposite order. -/
def c9_parlay_ba : DiverseParlay := { picks := [c9_pick_b, c9_pick_a] }

/-- Witness for C9 at two concrete candidates whose picks are reversals of
each other. -/
theorem c9_dedup_first_and_idempotent_witness :
    parlay_signature c9_parlay_ab = parlay_signature c9_parlay_ba :=
  c9_dedup_first_and_idempotent.2.2 c9_parlay_ab c9_parlay_ba (by decide)

/-- Helper: the metrics loop fails on any list containing a zero-odds
leg. -/
theorem metrics_loop_none_of_zero (z : Leg) (hz : z.odds = 0) :
    ∀ (l : List Leg) (acc : ℚ × ℚ × ℚ × Finset String),
      z ∈ l → metrics_loop l acc = none := by
  intro l
  induction l with
  | nil => intro acc h; simp at h
  | cons x xs ih =>
      intro acc h
      obtain ⟨co, cc, ev, bt⟩ := acc
      rcases List.mem_cons.mp h with rfl | hxs
      · rw [metrics_loop, if_pos hz]
      · rw [metrics_loop]
        by_cases hx : x.odds = 0
        · rw [if_pos hx]
        · rw [if_neg hx]
          cases hd : american_to_decimal x.odds with
          | none => rfl
          | some d => exact ih _ hxs

/-- Helper: a candidate containing a zero-odds leg is rejected by
`_calculate_parlay_metrics` before any odds arithmetic on that leg. -/
theorem calculate_parlay_metrics_none_of_zero (sport : String) (l : List Leg)
    (z : Leg) (hmem : z ∈ l) (hz : z.odds = 0) :
    calculate_parlay_metrics l sport = none := by
  unfold calculate_parlay_metrics
  by_cases h2 : l.length < 2
  · rw [if_pos h2]
  · rw [if_neg h2]
    by_cases hdiv : (((l.map (fun l => l.game.id)).toFinset.card : ℚ) <
        max 2 ((l.length : ℚ) * 0.5))
    · rw [if_pos hdiv]
    · rw [if_neg hdiv]
      rw [metrics_loop_none_of_zero z hz l _ hmem]

/-- Helper: removing an element that forces `f` to `none` from the pool
leaves the filterMapped fixed-size combinations unchanged. -/
theorem filterMap_sublistsLen_drop {α β : Type} (z : α) :
    ∀ (xs : List α) (k : Nat) (f : List α → Option β),
      (∀ l, z ∈ l → f l = none) → ∀ (ys : List α),
      (List.sublistsLen k (xs ++ z :: ys)).filterMap f
        = (List.sublistsLen k (xs ++ ys)).filterMap f := by
  intro xs
  induction xs with
  | nil =>
      intro k f hf ys
      cases k with
      | zero => rw [List.nil_append, List.nil_append, List.sublistsLen_zero,
          List.sublistsLen_zero]
      | succ k =>
          rw [List.nil_append, List.nil_append,
            List.sublistsLen_succ_cons, List.filterMap_append,
            List.filterMap_map]
          have hnil : (List.sublistsLen k ys).filterMap (f ∘ List.cons z) = [] := by
            apply List.filterMap_eq_nil_iff.mpr
            intro l _
            exact hf (z :: l) (by simp)
          rw [hnil, List.append_nil]
  | cons x xs ih =>
      intro k f hf ys
      cases k with
      | zero => rw [List.cons_append, List.cons_append, List.sublistsLen_zero,
          List.sublistsLen_zero]
      | succ k =>
          rw [List.cons_append, List.cons_append,
            List.sublistsLen_succ_cons, List.sublistsLen_succ_cons,
            List.filterMap_append, List.filterMap_append,
            List.filterMap_map, List.filterMap_map]
          rw [ih (k + 1) f hf ys]
          rw [ih k (f ∘ List.cons x) (fun l hl => hf (x :: l) (by simp [hl])) ys]

/-- Helper: a flatMap over a `range'` extended past the point where the
function is empty does not change. -/
theorem flatMap_range'_extend {β : Type} (g : Nat → List β) (s a : Nat)
    (h : ∀ k, s + a ≤ k → g k = []) :
    ∀ (d : Nat), (List.range' s (a + d)).flatMap g = (List.range' s a).flatMap g := by
  intro d
  induction d with
  | zero => rfl
  | succ n ih =>
      rw [show a + (n + 1) = (a + n) + 1 from rfl, List.range'_concat,
        List.flatMap_append, ih]
      have hg : g (s + (a + n)) = [] := h _ (by omega)
      simp [hg]

/-- C4 amended: in the diverse generator's enumeration, a candidate that
contains a zero-odds leg is rejected by `_calculate_parlay_metrics` before
any odds arithmetic on that leg, so enumerating a pool with one zero-odds
leg among valid legs produces exactly the candidates of the pool without
it. (`round_robin_generator`, by contrast, performs no such exclusion: its
odds arithmetic fails on a zero-odds leg — see the counterexample.) -/
theorem c4_diverse_zero_leg_excluded (minL maxL : Nat) (sport : String)
    (xs ys : List Leg) (z : Leg) (hz : z.odds = 0)
    (hlen : (xs ++ z :: ys).length ≤ 50) :
    diverse_simple_candidates minL maxL sport (xs ++ z :: ys)
      = diverse_simple_candidates minL maxL sport (xs ++ ys) := by
  unfold diverse_simple_candidates
  have htake1 : (xs ++ z :: ys).take 50 = xs ++ z :: ys :=
    List.take_of_length_le hlen
  have htake2 : (xs ++ ys).take 50 = xs ++ ys := by
    apply List.take_of_length_le
    simp only [List.length_append, List.length_cons] at hlen ⊢
    omega
  rw [htake1, htake2]
  have hpoint : (fun k => (List.sublistsLen k (xs ++ z :: ys)).filterMap
        (fun combo => calculate_parlay_metrics combo sport))
      = (fun k => (List.sublistsLen k (xs ++ ys)).filterMap
        (fun combo => calculate_parlay_metrics combo sport)) := by
    funext k
    exact filterMap_sublistsLen_drop z xs k _
      (fun l hl => calculate_parlay_metrics_none_of_zero sport l z hl hz) ys
  rw [hpoint]
  set n := (xs ++ ys).length with hn
  have hlen1 : (xs ++ z :: ys).length = n + 1 := by
    simp only [hn, List.length_append, List.length_cons]
    omega
  rw [hlen1]
  rcases le_or_lt (maxL + 1) (n + 1) with hc | hc
  · have h1 : min (maxL + 1) (n + 1 + 1) = maxL + 1 := by omega
    have h2 : min (maxL + 1) (n + 1) = maxL + 1 := by omega
    rw [h1, h2]
  · have h1 : min (maxL + 1) (n + 1 + 1) = n + 2 := by omega
    have h2 : min (maxL + 1) (n + 1) = n + 1 := by omega
    rw [h1, h2]
    simp only [py_range]
    have hsplit : n + 2 - minL = (n + 1 - minL) + (n + 2 - minL - (n + 1 - minL)) := by
      omega
    rw [hsplit]
    apply flatMap_range'_extend
    intro k hk
    rw [List.sublistsLen_of_length_lt (show (xs ++ ys).length < k by omega)]
    rfl

/-- Witness for C4 amended: a pool of one zero-odds leg among nine valid
legs over nine games, with the default bounds, enumerates identically to
the nine valid legs alone. -/
theorem c4_diverse_zero_leg_excluded_witness :
    diverse_simple_candidates 2 15 "NBA"
        ([⟨game_one, "moneyline", "a", -110, 0.5, none, 0.05, 0.6⟩] ++
          ⟨game_two, "moneyline", "zz", 0, 0.5, none, 0.05, 0.6⟩ ::
          [⟨game_three, "moneyline", "b", -110, 0.5, none, 0.05, 0.6⟩,
            ⟨game_four, "moneyline", "c", -105, 0.5, none, 0.05, 0.6⟩,
            ⟨game_five, "moneyline", "d", 100, 0.5, none, 0.05, 0.6⟩,
            ⟨⟨6, "F", "G"⟩, "moneyline", "e", 110, 0.5, none, 0.05, 0.6⟩,
            ⟨⟨7, "H", "I"⟩, "moneyline", "f", 120, 0.5, none, 0.05, 0.6⟩,
            ⟨⟨8, "J", "K"⟩, "moneyline", "g", 130, 0.5, none, 0.05, 0.6⟩,
            ⟨⟨9, "L", "M"⟩, "moneyline", "h", -120, 0.5, none, 0.05, 0.6⟩,
            ⟨⟨10, "N", "O"⟩, "moneyline", "i", -130, 0.5, none, 0.05, 0.6⟩])
      = diverse_simple_candidates 2 15 "NBA"
        ([⟨game_one, "moneyline", "a", -110, 0.5, none, 0.05, 0.6⟩] ++
          [⟨game_three, "moneyline", "b", -110, 0.5, none, 0.05, 0.6⟩,
            ⟨game_four, "moneyline", "c", -105, 0.5, none, 0.05, 0.6⟩,
            ⟨game_five, "moneyline", "d", 100, 0.5, none, 0.05, 0.6⟩,
            ⟨⟨6, "F", "G"⟩, "moneyline", "e", 110, 0.5, none, 0.05, 0.6⟩,
            ⟨⟨7, "H", "I"⟩, "moneyline", "f", 120, 0.5, none, 0.05, 0.6⟩,
            ⟨⟨8, "J", "K"⟩, "moneyline", "g", 130, 0.5, none, 0.05, 0.6⟩,
            ⟨⟨9, "L", "M"⟩, "moneyline", "h", -120, 0.5, none, 0.05, 0.6⟩,
            ⟨⟨10, "N", "O"⟩, "moneyline", "i", -130, 0.5, none, 0.05, 0.6⟩]) :=
  c4_diverse_zero_leg_excluded 2 15 "NBA" _ _ _ rfl (by simp)

/-- Pool with its zero-odds leg first, for the C4 counterexample. -/
def c4_pool_with_zero : List Leg :=
  [⟨game_three, "moneyline", "Chiefs", 0, 0.5, none, 0.05, 0.6⟩,
    ⟨game_one, "moneyline", "Lakers", -110, 0.52, none, 0.05, 0.6⟩,
    ⟨game_two, "moneyline", "Yankees", 120, 0.45, none, 0.05, 0.6⟩]

/-- The same pool without the zero-odds leg plus a third valid leg. -/
def c4_pool_valid : List Leg :=
  [⟨game_four, "moneyline", "Leafs", -105, 0.51, none, 0.05, 0.6⟩,
    ⟨game_one, "moneyline", "Lakers", -110, 0.52, none, 0.05, 0.6⟩,
    ⟨game_two, "moneyline", "Yankees", 120, 0.45, none, 0.05, 0.6⟩]

/-- C4 counterexample: `round_robin_generator` does not exclude a zero-odds
leg before its odds arithmetic — on a pool containing a zero-odds leg the
call fails (Python raises `ZeroDivisionError`, modelled as `none`) instead
of excluding the leg, while the same pool with a valid leg in its place
succeeds; the claim that every enumeration excludes zero-odds legs with
no crash is therefore false. -/
theorem c4_round_robin_zero_crash :
    round_robin_generator c4_pool_with_zero 3 = none ∧
      round_robin_generator c4_pool_valid 3 ≠ none := by
  constructor
  · simp only [round_robin_generator]
    rw [if_neg (by simp [c4_pool_with_zero])]
    have hz : american_to_decimal
        ((⟨game_three, "moneyline", "Chiefs", 0, 0.5, none, 0.05, 0.6⟩ : Leg).odds)
        = none := by
      simp [american_to_decimal]
    simp [c4_pool_with_zero, traverse_option, hz]
  · have hodds : ∀ l ∈ c4_pool_valid, l.odds ≠ 0 := by
      intro l hl
      simp [c4_pool_valid] at hl
      rcases hl with rfl | rfl | rfl <;> norm_num
    simp only [round_robin_generator]
    rw [if_neg (by simp [c4_pool_valid])]
    have hsucc : ∀ combo ∈ List.sublistsLen 3 c4_pool_valid,
        ((do
          let decimals ← traverse_option (fun l => american_to_decimal l.odds) combo
          let combined_implied := (combo.map Leg.implied_probability).prod
          let profit := decimals.prod - 1
          some ({ legs := combo, num_legs := 3,
                  combined_odds := profit_to_american profit,
                  implied_probability := combined_implied } :
            ParlayCandidate)) : Option ParlayCandidate).isSome = true := by
      intro combo hcombo
      have hss := (List.mem_sublistsLen.mp hcombo).1.subset
      obtain ⟨ds, hds⟩ := traverse_option_isSome_of
        (fun l => american_to_decimal l.odds) combo
        (fun l hl => american_to_decimal_isSome _ (hodds l (hss hl)))
      simp [hds]
    obtain ⟨out, hout⟩ := traverse_option_isSome_of _ _ hsucc
    rw [hout]
    simp

/-- C10: every prop or team-market leg returned by the `analyze_game`
blocks has `expected_value` at least 0.01; a leg whose computed EV is at
most −0.02 is dropped; and when the computed EV lies in (−0.02, 0.01) the
reported `expected_value` is clamped up to 0.01, strictly exceeding the EV
computed from the leg's own odds and probabilities. -/
theorem c10_prop_ev_floor :
    (∀ (g : Game) (o : ℚ) (pv : Bool) (conf tp : ℚ) (sel : String) (leg : Leg),
        prop_over_leg g o pv conf tp sel = some leg →
        0.01 ≤ leg.expected_value) ∧
      (∀ (g : Game) (o : ℚ) (pv : Bool) (conf tp : ℚ) (sel : String) (leg : Leg),
        prop_under_leg g o pv conf tp sel = some leg →
        0.01 ≤ leg.expected_value) ∧
      (∀ (g : Game) (bt : String) (o : ℚ) (pv : Bool) (conf tp : ℚ)
          (sel : String) (leg : Leg),
        team_market_over_leg g bt o pv conf tp sel = some leg →
        0.01 ≤ leg.expected_value) ∧
      (∀ (g : Game) (o : ℚ) (pv : Bool) (conf tp : ℚ) (sel : String) (ev : ℚ),
        calculate_expected_value (american_to_implied_prob o) tp o = some ev →
        ev ≤ -0.02 → prop_over_leg g o pv conf tp sel = none) ∧
      (∀ (g : Game) (o : ℚ) (pv : Bool) (conf tp : ℚ) (sel : String)
          (ev : ℚ) (leg : Leg),
        calculate_expected_value (american_to_implied_prob o) tp o = some ev →
        -0.02 < ev → ev < 0.01 →
        prop_over_leg g o pv conf tp sel = some leg →
        leg.expected_value = 0.01 ∧ ev < leg.expected_value) := by
  refine ⟨?_, ?_, ?_, ?_, ?_⟩
  · intro g o pv conf tp sel leg h
    simp only [prop_over_leg] at h
    split at h
    · simp at h
    · split at h
      · simp at h
      · split at h
        · simp at h
        · split at h
          · simp only [Option.some.injEq] at h
            rw [← h]
            exact le_max_right _ _
          · simp at h
  · intro g o pv conf tp sel leg h
    simp only [prop_under_leg] at h
    split at h
    · simp at h
    · split at h
      · simp at h
      · split at h
        · simp at h
        · split at h
          · simp only [Option.some.injEq] at h
            rw [← h]
            exact le_max_right _ _
          · simp at h
  · intro g bt o pv conf tp sel leg h
    simp only [team_market_over_leg] at h
    split at h
    · simp at h
    · split at h
      · simp at h
      · split at h
        · simp at h
        · split at h
          · simp only [Option.some.injEq] at h
            rw [← h]
            exact le_max_right _ _
          · simp at h
  · intro g o pv conf tp sel ev hev hle
    simp only [prop_over_leg]
    split
    · rfl
    · split
      · rfl
      · split
        · rfl
        next e heq =>
          rw [hev] at heq
          simp only [Option.some.injEq] at heq
          subst heq
          rw [if_neg (by linarith)]
  · intro g o pv conf tp sel ev leg hev h1 h2 hsome
    simp only [prop_over_leg] at hsome
    split at hsome
    · simp at hsome
    · split at hsome
      · simp at hsome
      · split at hsome
        · simp at hsome
        next e heq =>
          rw [hev] at heq
          simp only [Option.some.injEq] at heq
          subst heq
          split at hsome
          · simp only [Option.some.injEq] at hsome
            rw [← hsome]
            have hm : max ev (0.01 : ℚ) = 0.01 := max_eq_right (le_of_lt h2)
            exact ⟨hm, lt_of_lt_of_eq h2 hm.symm⟩
          · exact absurd h1 (by assumption)

/-- Fallback leg for the C10 witness. -/
def c10_default_leg : Leg := ⟨game_one, "", "", 1, 0, none, 0, 0⟩

/-- Witness for C10: at odds −110 with true probability equal to the
implied probability 11/21, the computed EV is 0 ∈ (−0.02, 0.01), so the
returned prop leg's expected_value is clamped to 0.01 and exceeds the
computed EV. -/
theorem c10_prop_ev_floor_witness :
    ((prop_over_leg game_one (-110) true 0.62 (11 / 21) "Over 25.5").getD
        c10_default_leg).expected_value = 0.01 ∧
      (0 : ℚ) < ((prop_over_leg game_one (-110) true 0.62 (11 / 21)
        "Over 25.5").getD c10_default_leg).expected_value := by
  have hev : calculate_expected_value (american_to_implied_prob (-110))
      (11 / 21) (-110) = some 0 := by
    norm_num [calculate_expected_value, american_to_decimal,
      american_to_implied_prob]
  have hsome : prop_over_leg game_one (-110) true 0.62 (11 / 21) "Over 25.5"
      = some ((prop_over_leg game_one (-110) true 0.62 (11 / 21)
        "Over 25.5").getD c10_default_leg) := by
    norm_num [prop_over_leg, MIN_CONFIDENCE, calculate_expected_value,
      american_to_decimal, american_to_implied_prob]
  have h := c10_prop_ev_floor.2.2.2.2 game_one (-110) true 0.62 (11 / 21)
    "Over 25.5" 0 _ hev (by norm_num) (by norm_num) hsome
  exact ⟨h.1, h.2⟩

end HeadCrack
